import Mathlib

/-!
Shallow embedding of the `json_flattener_rust` Python wrapper layer
(`src/python/json_flattener.py`, `src/python/benchmark.py`) together with a
model of the Rust flattening engine described by the specification.

Python strings are modelled as lists of characters (`Str`), Python/JSON
values as the inductive `Json` (numbers restricted to integers, which is the
only numeric shape any verified statement touches), fallible operations as
`Except PyErr`.
-/

/-- Python strings, modelled as lists of characters. -/
abbrev Str := List Char

/-- Parsed JSON values (spec section 3, Value Model): null, bool, number,
string, array, object.  Object keys keep insertion order.  Numbers are
modelled as integers. -/
inductive Json where
  | null : Json
  | bool (b : Bool) : Json
  | num (n : Int) : Json
  | str (s : Str) : Json
  | arr (xs : List Json) : Json
  | obj (kvs : List (Str × Json)) : Json

/-- Decimal rendering of a natural number, as Python's `str`. -/
def natToStr (n : Nat) : Str := Nat.toDigits 10 n

/-- Decimal rendering of an integer, as Python's `str`. -/
def intToStr (n : Int) : Str :=
  if n < 0 then '-' :: natToStr n.natAbs else natToStr n.natAbs

/-- The single-quote character used by Python `repr` of strings. -/
def sqc : Char := Char.ofNat 39

/-- Opening curly brace character. -/
def obr : Char := Char.ofNat 123

/-- Closing curly brace character. -/
def cbr : Char := Char.ofNat 125

mutual
/-- Python `repr` of a JSON-shaped Python value (`None`, `True`, numbers,
quoted strings, lists, dicts). -/
def pyRepr : Json → Str
  | .null => "None".data
  | .bool true => "True".data
  | .bool false => "False".data
  | .num n => intToStr n
  | .str s => sqc :: s ++ [sqc]
  | .arr xs => '[' :: pyReprList xs ++ [']']
  | .obj kvs => obr :: pyReprKvs kvs ++ [cbr]

/-- Python `repr` of list elements, comma-space separated. -/
def pyReprList : List Json → Str
  | [] => []
  | [x] => pyRepr x
  | x :: y :: rest => pyRepr x ++ ", ".data ++ pyReprList (y :: rest)

/-- Python `repr` of dict entries, comma-space separated. -/
def pyReprKvs : List (Str × Json) → Str
  | [] => []
  | [(k, v)] => sqc :: k ++ [sqc] ++ ": ".data ++ pyRepr v
  | (k, v) :: e :: rest =>
      sqc :: k ++ [sqc] ++ ": ".data ++ pyRepr v ++ ", ".data ++ pyReprKvs (e :: rest)
end

/-- Python `str` of a value: identity on strings, `repr` otherwise. -/
def pyStr : Json → Str
  | .str s => s
  | v => pyRepr v

/-- Escape a character for a JSON string literal (quotes and backslashes;
the modelled inputs contain no control characters). -/
def escChar (c : Char) : Str :=
  if c = '"' || c = '\\' then ['\\', c] else [c]

mutual
/-- Compact JSON serialization (as the Rust engine's serializer): no spaces
after separators. -/
def jsonSer : Json → Str
  | .null => "null".data
  | .bool true => "true".data
  | .bool false => "false".data
  | .num n => intToStr n
  | .str s => '"' :: (s.map escChar).flatten ++ ['"']
  | .arr xs => '[' :: jsonSerList xs ++ [']']
  | .obj kvs => obr :: jsonSerKvs kvs ++ [cbr]

/-- Compact serialization of array elements. -/
def jsonSerList : List Json → Str
  | [] => []
  | [x] => jsonSer x
  | x :: y :: rest => jsonSer x ++ [','] ++ jsonSerList (y :: rest)

/-- Compact serialization of object entries. -/
def jsonSerKvs : List (Str × Json) → Str
  | [] => []
  | [(k, v)] => '"' :: (k.map escChar).flatten ++ ['"', ':'] ++ jsonSer v
  | (k, v) :: e :: rest =>
      '"' :: (k.map escChar).flatten ++ ['"', ':'] ++ jsonSer v ++ [','] ++ jsonSerKvs (e :: rest)
end

mutual
/-- Python `json.dumps` with its default separators (", " and ": "). -/
def pyDumps : Json → Str
  | .null => "null".data
  | .bool true => "true".data
  | .bool false => "false".data
  | .num n => intToStr n
  | .str s => '"' :: (s.map escChar).flatten ++ ['"']
  | .arr xs => '[' :: pyDumpsList xs ++ [']']
  | .obj kvs => obr :: pyDumpsKvs kvs ++ [cbr]

/-- Serialization by `json.dumps` of array elements, comma-space separated. -/
def pyDumpsList : List Json → Str
  | [] => []
  | [x] => pyDumps x
  | x :: y :: rest => pyDumps x ++ ", ".data ++ pyDumpsList (y :: rest)

/-- Serialization by `json.dumps` of object entries. -/
def pyDumpsKvs : List (Str × Json) → Str
  | [] => []
  | [(k, v)] => '"' :: (k.map escChar).flatten ++ ['"'] ++ ": ".data ++ pyDumps v
  | (k, v) :: e :: rest =>
      '"' :: (k.map escChar).flatten ++ ['"'] ++ ": ".data ++ pyDumps v ++ ", ".data
        ++ pyDumpsKvs (e :: rest)
end

/-- Whitespace test for the JSON parser. -/
def isWsCh (c : Char) : Bool := c = ' ' || c = '\n' || c = '\t' || c = '\r'

/-- Drop leading JSON whitespace. -/
def skipWs : Str → Str
  | [] => []
  | c :: cs => if isWsCh c then skipWs cs else c :: cs

/-- Decimal digit test. -/
def isDigitCh (c : Char) : Bool := '0' ≤ c && c ≤ '9'

/-- Split a leading run of decimal digits from the rest of the input. -/
def takeDigits : Str → (Str × Str)
  | [] => ([], [])
  | c :: cs =>
      if isDigitCh c then
        let p := takeDigits cs
        (c :: p.1, p.2)
      else ([], c :: cs)

/-- Numeric value of a digit run. -/
def digitsToNat (ds : Str) : Nat := ds.foldl (fun acc c => acc * 10 + (c.toNat - 48)) 0

/-- Parse the body of a JSON string literal (after the opening quote),
un-escaping the two escapes the modelled serializers emit. -/
def parseJStr : Str → Option (Str × Str)
  | [] => none
  | '\\' :: c :: rest => (parseJStr rest).map (fun p => (c :: p.1, p.2))
  | '"' :: rest => some ([], rest)
  | c :: rest => (parseJStr rest).map (fun p => (c :: p.1, p.2))

mutual
/-- Modelled from the spec: the Value Model parser (section 4.1) lives in the
Rust crate and is absent from src/.  Fuel-indexed recursive-descent parse of
one JSON value, returning the value and the unconsumed input; covers the JSON
subset the verified statements exercise (integer numerals, basic escapes). -/
def parseVal : Nat → Str → Option (Json × Str)
  | 0, _ => none
  | Nat.succ fuel, s0 =>
    match skipWs s0 with
    | [] => none
    | c :: rest =>
      if c = '"' then (parseJStr rest).map (fun p => (.str p.1, p.2))
      else if c = '[' then
        match skipWs rest with
        | ']' :: r => some (.arr [], r)
        | s1 => (parseElems fuel s1).map (fun p => (.arr p.1, p.2))
      else if c = obr then
        match skipWs rest with
        | [] => none
        | d :: r =>
          if d = cbr then some (.obj [], r)
          else (parseMembers fuel (d :: r)).map (fun p => (.obj p.1, p.2))
      else if c = 'n' then
        match rest with
        | 'u' :: 'l' :: 'l' :: r => some (.null, r)
        | _ => none
      else if c = 't' then
        match rest with
        | 'r' :: 'u' :: 'e' :: r => some (.bool true, r)
        | _ => none
      else if c = 'f' then
        match rest with
        | 'a' :: 'l' :: 's' :: 'e' :: r => some (.bool false, r)
        | _ => none
      else if c = '-' then
        match takeDigits rest with
        | ([], _) => none
        | (ds, r) => some (.num (-(digitsToNat ds : Int)), r)
      else if isDigitCh c then
        match takeDigits (c :: rest) with
        | (ds, r) => some (.num (digitsToNat ds), r)
      else none

/-- Parse one or more comma-separated array elements up to `]`. -/
def parseElems : Nat → Str → Option (List Json × Str)
  | 0, _ => none
  | Nat.succ fuel, s =>
    match parseVal fuel s with
    | none => none
    | some (v, r) =>
      match skipWs r with
      | ',' :: r2 => (parseElems fuel r2).map (fun p => (v :: p.1, p.2))
      | ']' :: r2 => some ([v], r2)
      | _ => none

/-- Parse one or more comma-separated object members up to the closing brace. -/
def parseMembers : Nat → Str → Option (List (Str × Json) × Str)
  | 0, _ => none
  | Nat.succ fuel, s =>
    match skipWs s with
    | '"' :: r =>
      match parseJStr r with
      | none => none
      | some (k, r1) =>
        match skipWs r1 with
        | ':' :: r2 =>
          match parseVal fuel r2 with
          | none => none
          | some (v, r3) =>
            match skipWs r3 with
            | ',' :: r4 => (parseMembers fuel r4).map (fun p => ((k, v) :: p.1, p.2))
            | d :: r4 => if d = cbr then some ([(k, v)], r4) else none
            | _ => none
        | _ => none
    | _ => none
end

/-- Parse a complete JSON document; trailing non-whitespace is rejected
(spec section 4.1: trailing data is a ParseError). -/
def parseJson (s : Str) : Option Json :=
  match parseVal (s.length + 1) s with
  | some (v, r) => if skipWs r = [] then some v else none
  | none => none

/-- Path extension used throughout the wrapper and benchmark code:
`new_key = f"{parent_key}{sep}{k}" if parent_key else k`. -/
def newKey (parent sep k : Str) : Str := if parent = [] then k else parent ++ sep ++ k

/-- One step of Python `dict(items)` construction: an existing key keeps its
position but takes the later value, a new key is appended. -/
def pyUpdate (acc : List (Str × Str)) (kv : Str × Str) : List (Str × Str) :=
  if acc.any (fun p => p.1 == kv.1) then
    acc.map (fun p => if p.1 = kv.1 then (p.1, kv.2) else p)
  else acc ++ [kv]

/-- Python `dict(items)`: first-occurrence key order, last-write value. -/
def pyDict (items : List (Str × Str)) : List (Str × Str) := items.foldl pyUpdate []

mutual
/-- The items contributed to `flatten_json_python`'s `items` list by one dict
value `v` whose computed key is `nk` (the if/elif/else over the dict entry's
value in benchmark.py lines 39-48).  Dict values re-enter through `.items()`
of the recursively built dict, hence the `pyDict`. -/
def fjpVal (sep nk : Str) : Json → List (Str × Str)
  | .obj kvs => pyDict (fjpItems sep nk kvs)
  | .arr xs => fjpArr sep nk 0 xs
  | v => [(nk, pyStr v)]

/-- The `items` list accumulated by `flatten_json_python` in
`src/python/benchmark.py` (lines 35-49) over the entries of a dict, before
the final `dict(items)`. -/
def fjpItems (sep parent : Str) : List (Str × Json) → List (Str × Str)
  | [] => []
  | (k, v) :: rest => fjpVal sep (newKey parent sep k) v ++ fjpItems sep parent rest

/-- The per-element loop of the list branch of `flatten_json_python`
(benchmark.py lines 41-46): dict elements recurse with `f"{new_key}{sep}{i}"`,
all other elements append `(f"{new_key}{sep}{i}", str(item))`. -/
def fjpArr (sep nk : Str) (i : Nat) : List Json → List (Str × Str)
  | [] => []
  | item :: rest =>
    (match item with
     | .obj kvs => pyDict (fjpItems sep (nk ++ sep ++ natToStr i) kvs)
     | _ => [(nk ++ sep ++ natToStr i, pyStr item)]) ++ fjpArr sep nk (i + 1) rest
end

/-- The function `flatten_json_python(d, parent_key, sep)` from `src/python/benchmark.py`:
the flat dict produced from one (dict-rooted) value. -/
def flatten_json_python (d : List (Str × Json)) (parent : Str) (sep : Str) :
    List (Str × Str) :=
  pyDict (fjpItems sep parent d)

/-- The engine's flattening options, mirroring the keyword arguments the
wrapper's `__init__` passes to the Rust `PyFlattenOptions` constructor. -/
structure PyFlattenOptions where
  separator : Str
  maxConcurrency : Option Nat
  maxDepth : Nat
  includeArrayIndices : Bool
  expandArrays : Bool
  chunkSize : Nat
deriving DecidableEq

mutual
/-- Modelled from the spec: the Flatten Core (section 4.2) is implemented in
the Rust crate and absent from src/.  Depth-first traversal emitting
(path, stringified leaf) pairs; objects extend the path with
`newKey`, truncation at `max_depth` (0 = unlimited) serializes the subtree,
arrays either serialize whole (`expand_arrays = false`) or recurse per
element, with or without the index in the path. -/
def flattenCore (o : PyFlattenOptions) : Json → Str → Nat → List (Str × Str)
  | .obj kvs, path, depth => flattenObj o kvs path depth
  | .arr xs, path, depth =>
      if o.expandArrays then flattenArr o xs path depth 0
      else [(path, jsonSer (.arr xs))]
  | .null, path, _ => [(path, "null".data)]
  | .bool true, path, _ => [(path, "true".data)]
  | .bool false, path, _ => [(path, "false".data)]
  | .num n, path, _ => [(path, intToStr n)]
  | .str s, path, _ => [(path, s)]

/-- Object traversal of the Flatten Core (spec section 4.2, object case). -/
def flattenObj (o : PyFlattenOptions) : List (Str × Json) → Str → Nat → List (Str × Str)
  | [], _, _ => []
  | (k, v) :: rest, path, depth =>
      (if o.maxDepth ≠ 0 ∧ o.maxDepth < depth + 1 then
        [(newKey path o.separator k, jsonSer v)]
      else flattenCore o v (newKey path o.separator k) (depth + 1))
      ++ flattenObj o rest path depth

/-- Array traversal of the Flatten Core (spec section 4.2, array case with
`expand_arrays = true`). -/
def flattenArr (o : PyFlattenOptions) : List Json → Str → Nat → Nat → List (Str × Str)
  | [], _, _, _ => []
  | x :: xs, path, depth, i =>
      flattenCore o x
        (if o.includeArrayIndices then newKey path o.separator (natToStr i) else path) depth
      ++ flattenArr o xs path depth (i + 1)
end

/-- One FlatRecord from one root value: the engine's flat mapping (spec
section 3 FlatRecord invariant: no duplicate paths, last write wins). -/
def flattenRecord (o : PyFlattenOptions) (v : Json) : List (Str × Str) :=
  pyDict (flattenCore o v [] 0)

/-- Split a list into successive chunks of `n` elements (spec glossary:
"Chunk"); every chunk but the last has exactly `n` elements. -/
def chunksOf (n : Nat) : List α → List (List α)
  | [] => []
  | x :: xs => (x :: xs.take (n - 1)) :: chunksOf n (xs.drop (n - 1))
termination_by l => l.length
decreasing_by simp; omega

/-- Modelled from the spec: per-file record production of the Rust engine
(`flatten_json_file_py`, section 6): one FlatRecord per top-level array
element, processed in chunk_size batches, or a single record for any other
root. -/
def recordsOfRoot (o : PyFlattenOptions) : Json → List (List (Str × Str))
  | .arr xs => ((chunksOf o.chunkSize xs).map (fun ck => ck.map (flattenRecord o))).flatten
  | v => [flattenRecord o v]

/-- A reconciled Table (spec section 3): unified columns in first-seen order
and row-aligned values, `none` being the MISSING sentinel. -/
structure Table where
  columns : List Str
  rows : List (List (Option Str))
deriving DecidableEq

/-- Append the paths of one record that are not yet columns, in record order
(spec section 4.3, clause (a)). -/
def addColumns (cols : List Str) (rec : List (Str × Str)) : List Str :=
  rec.foldl (fun acc kv => if kv.1 ∈ acc then acc else acc ++ [kv.1]) cols

/-- Unified column set of a record sequence, in first-seen order. -/
def unifiedColumns (recs : List (List (Str × Str))) : List Str :=
  recs.foldl addColumns []

/-- One row aligned to a column list (spec section 4.3, clause (b)). -/
def alignRow (cols : List Str) (rec : List (Str × Str)) : List (Option Str) :=
  cols.map (fun c => List.lookup c rec)

/-- Modelled from the spec: the Batch/Schema Reconciler (section 4.3) in
finalize-then-materialize mode. -/
def buildTable (recs : List (List (Str × Str))) : Table :=
  ⟨unifiedColumns recs, recs.map (alignRow (unifiedColumns recs))⟩

/-- Errors surfaced by the modelled wrapper layer (spec section 7 taxonomy
plus the wrapper's own ValueError and ImportError). -/
inductive PyErr where
  | valueError
  | parseError
  | ioError
  | importError
deriving DecidableEq

/-- Contents of a file visible to the wrapper: an already-tabular parquet
file or JSON text. -/
inductive FileData where
  | parquet (rows : List (List (Str × Str)))
  | jsonText (s : Str)

/-- The filesystem, as a partial map from paths to file contents;
`os.path.isfile` is `(read p).isSome`. -/
structure FileSys where
  read : Str → Option FileData

/-- Prefix test on character lists. -/
def leadsWith : Str → Str → Bool
  | [], _ => true
  | _ :: _, [] => false
  | a :: as, b :: bs => a == b && leadsWith as bs

/-- Python `str.endswith` on character lists. -/
def strEndsWith (s suf : Str) : Bool := leadsWith suf.reverse s.reverse

/-- The `'.parquet'` suffix the wrapper dispatches on. -/
def parquetExt : Str := ".parquet".data

/-- The wrapper's module-level polars availability flag; polars is modelled
as importable. -/
def HAS_POLARS : Bool := true

/-- The `JSONFlattener` wrapper object: the options built in `__init__` and
the resolved `prefer_polars` flag. -/
structure JSONFlattener where
  options : PyFlattenOptions
  prefer_polars : Bool

/-- Constructor `JSONFlattener.__init__` (json_flattener.py lines 26-45): builds the
`PyFlattenOptions` from its keyword arguments and resolves `prefer_polars`
against `HAS_POLARS`. -/
def mkJSONFlattener (separator : Str) (max_concurrency : Option Nat) (max_depth : Nat)
    (include_array_indices : Bool) (expand_arrays : Bool) (chunk_size : Nat)
    (prefer_polars : Bool) : JSONFlattener :=
  ⟨⟨separator, max_concurrency, max_depth, include_array_indices, expand_arrays, chunk_size⟩,
    prefer_polars && HAS_POLARS⟩

/-- Construction `JSONFlattener()` with every keyword argument left at its default, as in
the `__init__` signature: `separator="."`, `max_concurrency=None`,
`max_depth=0`, `include_array_indices=True`, `expand_arrays=True`,
`chunk_size=10000`, `prefer_polars=True`. -/
def defaultJSONFlattener : JSONFlattener :=
  mkJSONFlattener ['.'] none 0 true true 10000 true

/-- A Python value as passed to `flatten_json`: a str, dict or list, or a
value of any other type (modelled by None, bool, int). -/
inductive PyArg where
  | ofStr (s : Str)
  | ofDict (kvs : List (Str × Json))
  | ofList (xs : List Json)
  | ofNone
  | ofBool (b : Bool)
  | ofInt (n : Int)

/-- Modelled from the spec: `flatten_json_str` (Rust, absent from src/)
parses the JSON text and runs the Flatten Core; malformed text is a
ParseError (spec sections 4.1, 6, 7). -/
def flatten_json_str (s : Str) (o : PyFlattenOptions) : Except PyErr (List (Str × Str)) :=
  match parseJson s with
  | some v => .ok (flattenRecord o v)
  | none => .error .parseError

/-- Method `JSONFlattener.flatten_json` (json_flattener.py lines 47-56): dicts and
lists are `json.dumps`-serialized and the text flattened, strings are
flattened directly, anything else raises ValueError. -/
def JSONFlattener.flatten_json (fl : JSONFlattener) : PyArg → Except PyErr (List (Str × Str))
  | .ofDict kvs => flatten_json_str (pyDumps (.obj kvs)) fl.options
  | .ofList xs => flatten_json_str (pyDumps (.arr xs)) fl.options
  | .ofStr s => flatten_json_str s fl.options
  | _ => .error .valueError

/-- Modelled from the spec: `flatten_json_file_py` (Rust, absent from src/)
reads and parses the file and produces one FlatRecord per top-level array
element (one record for an object root), per spec section 6. -/
def flatten_json_file_py (fs : FileSys) (path : Str) (o : PyFlattenOptions) :
    Except PyErr (List (List (Str × Str))) :=
  match fs.read path with
  | some (.jsonText s) =>
    match parseJson s with
    | some v => .ok (recordsOfRoot o v)
    | none => .error .parseError
  | _ => .error .ioError

/-- Method `JSONFlattener.flatten_file` (json_flattener.py lines 58-69): parquet
paths are read and returned as row dicts without flattening, everything else
goes to the engine. -/
def JSONFlattener.flatten_file (fl : JSONFlattener) (fs : FileSys) (path : Str) :
    Except PyErr (List (List (Str × Str))) :=
  if strEndsWith path parquetExt then
    match fs.read path with
    | some (.parquet rows) => .ok rows
    | _ => .error .ioError
  else flatten_json_file_py fs path fl.options

/-- Modelled from the spec: `process_large_json_file` (Rust, absent from
src/).  Per the wrapper's own comment (json_flattener.py lines 77-78, "we
just return the first row as a dict as this is what process_large_json_file
does for JSON") and spec section 9, it returns a single flattened mapping:
the first produced record. -/
def process_large_json_file (fs : FileSys) (path : Str) (o : PyFlattenOptions) :
    Except PyErr (List (Str × Str)) :=
  match fs.read path with
  | some (.jsonText s) =>
    match parseJson s with
    | some v => .ok ((recordsOfRoot o v).headD [])
    | none => .error .parseError
  | _ => .error .ioError

/-- Method `JSONFlattener.flatten_large_file` (json_flattener.py lines 71-84):
parquet paths return the first row (or an empty dict), everything else goes
to `process_large_json_file`. -/
def JSONFlattener.flatten_large_file (fl : JSONFlattener) (fs : FileSys) (path : Str) :
    Except PyErr (List (Str × Str)) :=
  if strEndsWith path parquetExt then
    match fs.read path with
    | some (.parquet rows) => .ok (rows.headD [])
    | _ => .error .ioError
  else process_large_json_file fs path fl.options

/-- Modelled from the spec: `flatten_pandas_ready` (Rust, absent from src/)
produces the flattened tabular data `pd.DataFrame` is built from; modelled as
the same per-file record sequence. -/
def flatten_pandas_ready (fs : FileSys) (path : Str) (o : PyFlattenOptions) :
    Except PyErr (List (List (Str × Str))) :=
  flatten_json_file_py fs path o

/-- Modelled from the spec: `flatten_polaris_ready` (Rust, absent from src/),
as `flatten_pandas_ready` but shaped for polars. -/
def flatten_polaris_ready (fs : FileSys) (path : Str) (o : PyFlattenOptions) :
    Except PyErr (List (List (Str × Str))) :=
  flatten_json_file_py fs path o

/-- Method `JSONFlattener.flatten_to_pandas` (json_flattener.py lines 86-92):
parquet paths are returned by `pd.read_parquet` untouched, everything else is
flattened and wrapped in a DataFrame (modelled as its row list). -/
def JSONFlattener.flatten_to_pandas (fl : JSONFlattener) (fs : FileSys) (path : Str) :
    Except PyErr (List (List (Str × Str))) :=
  if strEndsWith path parquetExt then
    match fs.read path with
    | some (.parquet rows) => .ok rows
    | _ => .error .ioError
  else flatten_pandas_ready fs path fl.options

/-- Method `JSONFlattener.flatten_to_polars` (json_flattener.py lines 94-103). -/
def JSONFlattener.flatten_to_polars (fl : JSONFlattener) (fs : FileSys) (path : Str) :
    Except PyErr (List (List (Str × Str))) :=
  if !HAS_POLARS then .error .importError
  else if strEndsWith path parquetExt then
    match fs.read path with
    | some (.parquet rows) => .ok rows
    | _ => .error .ioError
  else flatten_polaris_ready fs path fl.options

/-- Convenience function `flatten_json_to_pandas` (json_flattener.py lines 150-170): a string
argument naming an existing file is flattened as a file; any other argument
is flattened as a single document and wrapped in a one-row DataFrame. -/
def flatten_json_to_pandas (fs : FileSys) (json_data : PyArg) (separator : Str)
    (max_depth : Nat) (expand_arrays : Bool) : Except PyErr (List (List (Str × Str))) :=
  let flattener := mkJSONFlattener separator none max_depth true expand_arrays 10000 false
  match json_data with
  | .ofStr s =>
    if (fs.read s).isSome then flattener.flatten_to_pandas fs s
    else (flattener.flatten_json (.ofStr s)).map (fun r => [r])
  | x => (flattener.flatten_json x).map (fun r => [r])

/-- Convenience function `flatten_json_to_polars` (json_flattener.py lines 173-196). -/
def flatten_json_to_polars (fs : FileSys) (json_data : PyArg) (separator : Str)
    (max_depth : Nat) (expand_arrays : Bool) : Except PyErr (List (List (Str × Str))) :=
  if !HAS_POLARS then .error .importError
  else
    let flattener := mkJSONFlattener separator none max_depth true expand_arrays 10000 true
    match json_data with
    | .ofStr s =>
      if (fs.read s).isSome then flattener.flatten_to_polars fs s
      else (flattener.flatten_json (.ofStr s)).map (fun r => [r])
    | x => (flattener.flatten_json x).map (fun r => [r])

/-- Modelled from the spec: worker results of the Concurrency Coordinator
(section 4.5).  The schedule lists chunk indices in completion order; each
completion stores the chunk's ordered FlatRecords keyed by chunk index. -/
def workerResults (o : PyFlattenOptions) (cks : List (List Json)) (schedule : List Nat) :
    List (Nat × List (List (Str × Str))) :=
  schedule.map (fun i => (i, (cks.getD i []).map (flattenRecord o)))

/-- Modelled from the spec: the Coordinator's merge (section 4.5) re-sequences
completed chunks by original chunk index, never by completion order. -/
def mergeInOrder (n : Nat) (results : List (Nat × List (List (Str × Str)))) :
    List (List (Str × Str)) :=
  ((List.range n).map (fun i => (List.lookup i results).getD [])).flatten

/-- Modelled from the spec: `process_concurrent` (section 4.5): chunk the
elements, flatten each chunk (completing in schedule order), merge in chunk
order, reconcile into a Table. -/
def process_concurrent (o : PyFlattenOptions) (elems : List Json) (schedule : List Nat) :
    Table :=
  buildTable (mergeInOrder (chunksOf o.chunkSize elems).length
    (workerResults o (chunksOf o.chunkSize elems) schedule))

/-- The separator-joined path a leaf inherits when the traversal starts from
prefix `p` and descends through the keys `ks`, mirroring the repeated
`newKey` extension performed by the flattening code. -/
def extKey (p sep : Str) (ks : List Str) : Str :=
  ks.foldl (fun acc k => newKey acc sep k) p

/-- Python `str.split` for a single-character separator. -/
def splitOnSep (c : Char) (s : Str) : List Str := s.splitOn c

mutual
/-- Key sequences from a value down to each of its leaves: an object defers
to its entries, anything else is itself a leaf (meaningful for array-free
values, where every non-object value is a leaf scalar). -/
def leafSeqsVal : Json → List (List Str)
  | .obj kvs => leafSeqsObj kvs
  | _ => [[]]

/-- Root-to-leaf key sequences of the leaf scalars of an object, in traversal
order (spec section 8, first testable property). -/
def leafSeqsObj : List (Str × Json) → List (List Str)
  | [] => []
  | (k, v) :: rest => (leafSeqsVal v).map (fun s => k :: s) ++ leafSeqsObj rest
end

mutual
/-- Value-side well-formedness for the path round-trip: no arrays anywhere,
and every object layer satisfies `goodKvs`. -/
def goodVal (c : Char) : Json → Bool
  | .obj kvs => goodKvs c kvs
  | .arr _ => false
  | _ => true

/-- Object-layer well-formedness for the path round-trip with separator `c`:
keys are nonempty, contain no separator character, are unique within the
layer, and all child values are well-formed. -/
def goodKvs (c : Char) : List (Str × Json) → Bool
  | [] => true
  | (k, v) :: rest =>
      !k.isEmpty && !k.contains c && !(rest.any (fun e => e.1 == k))
        && goodVal c v && goodKvs c rest
end

/-- Follows the spec's words, not the source: `flatten_file_streaming(path,
policy) → Table` (spec sections 4.4 and 6) returns the full reconciled
Table, one row per top-level array element. -/
def flatten_file_streaming (o : PyFlattenOptions) (s : Str) : Except PyErr Table :=
  match parseJson s with
  | some v => .ok (buildTable (recordsOfRoot o v))
  | none => .error .parseError

/-- Test by `isinstance` used by `flatten_json`: true exactly for arguments that
are neither a str, a dict, nor a list. -/
def notStrDictList : PyArg → Bool
  | .ofStr _ => false
  | .ofDict _ => false
  | .ofList _ => false
  | _ => true

/-- A small concrete filesystem used by the witnesses: one JSON file holding
`[1,2]` and one parquet file holding a single row. -/
def fsEx : FileSys :=
  ⟨fun p =>
    if p = "data.json".data then some (.jsonText "[1,2]".data)
    else if p = "t.parquet".data then some (.parquet [[("a".data, "1".data)]])
    else none⟩

/-- True of values that are neither dicts nor lists: the values of an
already-flat single-level object. -/
def isFlatVal : Json → Bool
  | .obj _ => false
  | .arr _ => false
  | _ => true

/-- Read a FlatRecord back as a JSON object, its text values as JSON
strings: the ambient mapping in which a flat record and a flat JSON object
can be compared. -/
def recordToObj (rec : List (Str × Str)) : List (Str × Json) :=
  rec.map (fun pr => (pr.1, Json.str pr.2))

theorem foldl_pyUpdate_eq :
    ∀ (items acc : List (Str × Str)), ((acc ++ items).map Prod.fst).Nodup →
      items.foldl pyUpdate acc = acc ++ items := by
  intro items
  induction items with
  | nil => intro acc _; simp
  | cons kv rest ih =>
    intro acc h
    have hsplit := h
    rw [List.map_append, List.nodup_append] at hsplit
    have hnotin : acc.any (fun p => p.1 == kv.1) = false := by
      rw [List.any_eq_false]
      rintro p hp hbeq
      have : p.1 ∈ acc.map Prod.fst := List.mem_map_of_mem Prod.fst hp
      have h2 : p.1 ∉ (kv :: rest).map Prod.fst := hsplit.2.2 this
      apply h2
      simp only [List.map_cons, List.mem_cons]
      exact Or.inl (by simpa using hbeq)
    rw [List.foldl_cons]
    have hupd : pyUpdate acc kv = acc ++ [kv] := by
      unfold pyUpdate
      rw [hnotin]
      simp
    rw [hupd, ih (acc ++ [kv]) (by simpa using h)]
    simp

/-- Python `dict(items)` is the identity on an items list with distinct keys. -/
theorem pyDict_eq_self (items : List (Str × Str)) (h : (items.map Prod.fst).Nodup) :
    pyDict items = items := by
  have := foldl_pyUpdate_eq items [] (by simpa using h)
  simpa [pyDict] using this

/-- Chunking and re-concatenating is the identity. -/
theorem flatten_chunksOf (n : Nat) : ∀ l : List α, (chunksOf n l).flatten = l
  | [] => by simp [chunksOf]
  | x :: xs => by
    rw [chunksOf]
    simp only [List.flatten_cons]
    rw [flatten_chunksOf n (xs.drop (n - 1))]
    simp
termination_by l => l.length
decreasing_by simp; omega

/-- Chunked per-element flattening of an array root is exactly one record per
element, in order. -/
theorem recordsOfRoot_arr (o : PyFlattenOptions) (xs : List Json) :
    recordsOfRoot o (.arr xs) = xs.map (flattenRecord o) := by
  show ((chunksOf o.chunkSize xs).map (fun ck => ck.map (flattenRecord o))).flatten
      = xs.map (flattenRecord o)
  rw [← flatten_chunksOf o.chunkSize xs]
  exact ((List.map_flatten _ _).symm).trans (by rw [flatten_chunksOf])

theorem lookup_map_self (f : Nat → β) :
    ∀ (l : List Nat) (i : Nat), i ∈ l →
      List.lookup i (l.map (fun j => (j, f j))) = some (f i) := by
  intro l
  induction l with
  | nil => simp
  | cons j rest ih =>
    intro i hi
    by_cases h : i = j
    · subst h; simp [List.lookup]
    · have hr : i ∈ rest := by
        rcases List.mem_cons.mp hi with h1 | h1
        · exact absurd h1 h
        · exact h1
      simp [List.lookup, beq_false_of_ne h, ih i hr]

theorem map_getD_range (g : α → β) (d : α) :
    ∀ l : List α, (List.range l.length).map (fun i => g (l.getD i d)) = l.map g := by
  intro l
  induction l with
  | nil => simp
  | cons x xs ih =>
    rw [List.length_cons, List.range_succ_eq_map]
    simp only [List.map_cons, List.getD_cons_zero, List.map_map]
    refine congrArg (g x :: ·) ?_
    rw [← ih]
    exact List.map_congr_left (fun i _ => by simp [Function.comp, List.getD_cons_succ])

/-- Re-sequencing completed chunks by original index recovers the sequential
chunk order, for any completion schedule that is a permutation of the chunk
indices. -/
theorem mergeInOrder_perm (o : PyFlattenOptions) (cks : List (List Json))
    (schedule : List Nat) (h : schedule.Perm (List.range cks.length)) :
    mergeInOrder cks.length (workerResults o cks schedule)
      = (cks.map (fun ck => ck.map (flattenRecord o))).flatten := by
  unfold mergeInOrder workerResults
  refine congrArg List.flatten ?_
  have hpt : ∀ i ∈ List.range cks.length,
      (List.lookup i (schedule.map (fun j => (j, (cks.getD j []).map (flattenRecord o))))).getD []
        = (cks.getD i []).map (flattenRecord o) := by
    intro i hi
    rw [lookup_map_self _ schedule i (h.mem_iff.mpr hi)]
    rfl
  rw [List.map_congr_left hpt]
  exact map_getD_range (fun ck => ck.map (flattenRecord o)) [] cks

/-- Any permutation schedule yields the same Table as sequential processing:
the reconciled table of the per-element records. -/
theorem process_concurrent_eq (o : PyFlattenOptions) (elems : List Json)
    (schedule : List Nat)
    (h : schedule.Perm (List.range (chunksOf o.chunkSize elems).length)) :
    process_concurrent o elems schedule = buildTable (elems.map (flattenRecord o)) := by
  unfold process_concurrent
  rw [mergeInOrder_perm o _ schedule h]
  refine congrArg buildTable ?_
  rw [← flatten_chunksOf o.chunkSize elems]
  exact ((List.map_flatten _ _).symm).trans (by rw [flatten_chunksOf])

/-- Claim C2: for every readable JSON input file, `flatten_file` returns an
ordered sequence of flat records, exactly one per top-level array element
when the root is an array, and exactly one record when the root is a single
object. -/
theorem flatten_file_one_record_per_element
    (fl : JSONFlattener) (fs : FileSys) (path s : Str) (v : Json)
    (hpq : strEndsWith path parquetExt = false)
    (hread : fs.read path = some (.jsonText s))
    (hparse : parseJson s = some v) :
    (∀ xs, v = .arr xs →
      fl.flatten_file fs path = .ok (xs.map (flattenRecord fl.options))) ∧
    (∀ kvs, v = .obj kvs →
      fl.flatten_file fs path = .ok [flattenRecord fl.options (.obj kvs)]) := by
  constructor
  · rintro xs rfl
    simp [JSONFlattener.flatten_file, hpq, flatten_json_file_py, hread, hparse,
      recordsOfRoot_arr]
  · rintro kvs rfl
    simp [JSONFlattener.flatten_file, hpq, flatten_json_file_py, hread, hparse,
      recordsOfRoot]

/-- Witness for C2 at the concrete file `data.json` containing `[1,2]`. -/
theorem flatten_file_one_record_per_element_witness :
    defaultJSONFlattener.flatten_file fsEx "data.json".data
      = .ok ([Json.num 1, Json.num 2].map (flattenRecord defaultJSONFlattener.options)) :=
  (flatten_file_one_record_per_element defaultJSONFlattener fsEx "data.json".data
    "[1,2]".data (.arr [Json.num 1, Json.num 2]) rfl rfl rfl).1
    [Json.num 1, Json.num 2] rfl

/-- Claim C1: on an array-rooted JSON file the wrapper's large-file entry
point returns a single flattened mapping (the first record), while the
spec's `flatten_file_streaming` contract requires a full Table with one row
per top-level element. -/
theorem flatten_large_file_single_mapping_vs_streaming_table
    (fl : JSONFlattener) (fs : FileSys) (path s : Str) (xs : List Json)
    (hpq : strEndsWith path parquetExt = false)
    (hread : fs.read path = some (.jsonText s))
    (hparse : parseJson s = some (.arr xs)) :
    fl.flatten_large_file fs path = .ok ((xs.map (flattenRecord fl.options)).headD []) ∧
    ∃ t : Table, flatten_file_streaming fl.options s = .ok t ∧ t.rows.length = xs.length := by
  refine ⟨?_, ⟨buildTable (recordsOfRoot fl.options (.arr xs)), ?_, ?_⟩⟩
  · simp [JSONFlattener.flatten_large_file, hpq, process_large_json_file, hread, hparse,
      recordsOfRoot_arr]
  · simp [flatten_file_streaming, hparse]
  · simp [buildTable, recordsOfRoot_arr]

/-- Witness for C1 at the concrete file `data.json` containing `[1,2]`. -/
theorem flatten_large_file_single_mapping_vs_streaming_table_witness :
    defaultJSONFlattener.flatten_large_file fsEx "data.json".data
      = .ok (([Json.num 1, Json.num 2].map (flattenRecord defaultJSONFlattener.options)).headD [])
    ∧ ∃ t : Table, flatten_file_streaming defaultJSONFlattener.options "[1,2]".data = .ok t
        ∧ t.rows.length = [Json.num 1, Json.num 2].length :=
  flatten_large_file_single_mapping_vs_streaming_table defaultJSONFlattener fsEx
    "data.json".data "[1,2]".data [Json.num 1, Json.num 2] rfl rfl rfl

/-- Claim C6: for every path ending in `.parquet`, `flatten_file` and
`flatten_to_pandas` return the file's already-tabular rows directly, without
invoking the flattening engine. -/
theorem parquet_passthrough_no_flattening
    (fl : JSONFlattener) (fs : FileSys) (path : Str) (rows : List (List (Str × Str)))
    (hpq : strEndsWith path parquetExt = true)
    (hread : fs.read path = some (.parquet rows)) :
    fl.flatten_file fs path = .ok rows ∧ fl.flatten_to_pandas fs path = .ok rows := by
  constructor
  · simp [JSONFlattener.flatten_file, hpq, hread]
  · simp [JSONFlattener.flatten_to_pandas, hpq, hread]

/-- Witness for C6 at the concrete parquet file `t.parquet`. -/
theorem parquet_passthrough_no_flattening_witness :
    defaultJSONFlattener.flatten_file fsEx "t.parquet".data
        = .ok [[("a".data, "1".data)]]
    ∧ defaultJSONFlattener.flatten_to_pandas fsEx "t.parquet".data
        = .ok [[("a".data, "1".data)]] :=
  parquet_passthrough_no_flattening defaultJSONFlattener fsEx "t.parquet".data
    [[("a".data, "1".data)]] rfl rfl

/-- Claim C7: `JSONFlattener()` built with no arguments carries the default
policy: separator ".", max_depth 0 (unlimited), include_array_indices true,
expand_arrays true, a positive chunk_size, and max_concurrency absent. -/
theorem default_policy_fields :
    defaultJSONFlattener.options.separator = ['.'] ∧
    defaultJSONFlattener.options.maxDepth = 0 ∧
    defaultJSONFlattener.options.includeArrayIndices = true ∧
    defaultJSONFlattener.options.expandArrays = true ∧
    0 < defaultJSONFlattener.options.chunkSize ∧
    defaultJSONFlattener.options.maxConcurrency = none := by
  refine ⟨by decide, rfl, rfl, rfl, by decide, rfl⟩

/-- Claim C5: flattening `(a : [1,2,3])` with expand_arrays, array indices
and separator "." yields exactly the pairs a.0=1, a.1=2, a.2=3 (both in the
benchmark's pure-Python flattener and in the engine model), and with
expand_arrays=false exactly one pair mapping "a" to the serialized array. -/
theorem array_expansion_pairs :
    flatten_json_python [("a".data, Json.arr [Json.num 1, Json.num 2, Json.num 3])] [] ['.']
      = [("a.0".data, "1".data), ("a.1".data, "2".data), ("a.2".data, "3".data)] ∧
    flattenRecord ⟨['.'], none, 0, true, true, 10000⟩
        (Json.obj [("a".data, Json.arr [Json.num 1, Json.num 2, Json.num 3])])
      = [("a.0".data, "1".data), ("a.1".data, "2".data), ("a.2".data, "3".data)] ∧
    flattenRecord ⟨['.'], none, 0, true, false, 10000⟩
        (Json.obj [("a".data, Json.arr [Json.num 1, Json.num 2, Json.num 3])])
      = [("a".data, "[1,2,3]".data)] := by
  refine ⟨by decide, by decide, by decide⟩

/-- Claim C8: processing the top-level elements with any completion schedule
(out-of-order completion under max_concurrency > 1) yields a table whose
column order and row order are identical to sequential processing
(max_concurrency = 1, completion in chunk order). -/
theorem concurrent_ordering_deterministic (o : PyFlattenOptions) (elems : List Json)
    (schedule : List Nat)
    (h : schedule.Perm (List.range (chunksOf o.chunkSize elems).length)) :
    (process_concurrent o elems schedule).columns
      = (process_concurrent o elems (List.range (chunksOf o.chunkSize elems).length)).columns
    ∧ (process_concurrent o elems schedule).rows
      = (process_concurrent o elems (List.range (chunksOf o.chunkSize elems).length)).rows := by
  rw [process_concurrent_eq o elems schedule h,
      process_concurrent_eq o elems _ (List.Perm.refl _)]
  exact ⟨rfl, rfl⟩

/-- Witness for C8: two singleton chunks completing in reversed order. -/
theorem concurrent_ordering_deterministic_witness :
    ([1, 0].Perm (List.range (chunksOf (1 : Nat) [Json.num 1, Json.num 2]).length)) ∧
    ((process_concurrent ⟨['.'], none, 0, true, true, 1⟩ [Json.num 1, Json.num 2] [1, 0]).columns
      = (process_concurrent ⟨['.'], none, 0, true, true, 1⟩ [Json.num 1, Json.num 2]
          (List.range (chunksOf (1 : Nat) [Json.num 1, Json.num 2]).length)).columns
    ∧ (process_concurrent ⟨['.'], none, 0, true, true, 1⟩ [Json.num 1, Json.num 2] [1, 0]).rows
      = (process_concurrent ⟨['.'], none, 0, true, true, 1⟩ [Json.num 1, Json.num 2]
          (List.range (chunksOf (1 : Nat) [Json.num 1, Json.num 2]).length)).rows) := by
  have hperm : ([1, 0].Perm (List.range (chunksOf (1 : Nat) [Json.num 1, Json.num 2]).length)) := by
    simp [chunksOf]
    decide
  exact ⟨hperm, concurrent_ordering_deterministic ⟨['.'], none, 0, true, true, 1⟩
    [Json.num 1, Json.num 2] [1, 0] hperm⟩

/-- Claim C9: `flatten_json` raises ValueError exactly when its argument is
neither a str, a dict, nor a list; dict and list arguments are serialized
with `json.dumps` and the text flattened, so a dict or list argument and its
serialized string produce the same result. -/
theorem flatten_json_value_error_and_serialize (fl : JSONFlattener) :
    (∀ x : PyArg, fl.flatten_json x = .error .valueError ↔ notStrDictList x = true) ∧
    (∀ kvs, fl.flatten_json (.ofDict kvs) = flatten_json_str (pyDumps (.obj kvs)) fl.options) ∧
    (∀ xs, fl.flatten_json (.ofList xs) = flatten_json_str (pyDumps (.arr xs)) fl.options) ∧
    (∀ kvs, fl.flatten_json (.ofDict kvs) = fl.flatten_json (.ofStr (pyDumps (.obj kvs)))) ∧
    (∀ xs, fl.flatten_json (.ofList xs) = fl.flatten_json (.ofStr (pyDumps (.arr xs)))) := by
  refine ⟨?_, fun kvs => rfl, fun xs => rfl, fun kvs => rfl, fun xs => rfl⟩
  intro x
  cases x with
  | ofStr s =>
      simp only [JSONFlattener.flatten_json, flatten_json_str]
      cases h : parseJson s <;> simp [notStrDictList]
  | ofDict kvs =>
      simp only [JSONFlattener.flatten_json, flatten_json_str]
      cases h : parseJson (pyDumps (.obj kvs)) <;> simp [notStrDictList]
  | ofList xs =>
      simp only [JSONFlattener.flatten_json, flatten_json_str]
      cases h : parseJson (pyDumps (.arr xs)) <;> simp [notStrDictList]
  | ofNone => simp [JSONFlattener.flatten_json, notStrDictList]
  | ofBool b => simp [JSONFlattener.flatten_json, notStrDictList]
  | ofInt n => simp [JSONFlattener.flatten_json, notStrDictList]

/-- Witness for C9: `None` is rejected with ValueError, and a concrete dict
agrees with its `json.dumps` serialization. -/
theorem flatten_json_value_error_and_serialize_witness :
    defaultJSONFlattener.flatten_json .ofNone = .error .valueError ∧
    defaultJSONFlattener.flatten_json (.ofDict [("a".data, Json.num 1)])
      = defaultJSONFlattener.flatten_json
          (.ofStr (pyDumps (.obj [("a".data, Json.num 1)]))) :=
  ⟨((flatten_json_value_error_and_serialize defaultJSONFlattener).1 .ofNone).mpr rfl,
    (flatten_json_value_error_and_serialize defaultJSONFlattener).2.2.2.1
      [("a".data, Json.num 1)]⟩

/-- Claim C10: the convenience functions treat a string argument as a file
path exactly when a file exists at that path; otherwise the string is
flattened as a single JSON document into a one-row DataFrame. -/
theorem convenience_string_path_dispatch (fs : FileSys) (sep : Str) (md : Nat)
    (ea : Bool) (s : Str) :
    ((fs.read s).isSome = true →
      flatten_json_to_pandas fs (.ofStr s) sep md ea
        = (mkJSONFlattener sep none md true ea 10000 false).flatten_to_pandas fs s
      ∧ flatten_json_to_polars fs (.ofStr s) sep md ea
        = (mkJSONFlattener sep none md true ea 10000 true).flatten_to_polars fs s) ∧
    (fs.read s = none →
      flatten_json_to_pandas fs (.ofStr s) sep md ea
        = ((mkJSONFlattener sep none md true ea 10000 false).flatten_json
            (.ofStr s)).map (fun r => [r])
      ∧ flatten_json_to_polars fs (.ofStr s) sep md ea
        = ((mkJSONFlattener sep none md true ea 10000 true).flatten_json
            (.ofStr s)).map (fun r => [r])) ∧
    (∀ df, fs.read s = none →
      flatten_json_to_pandas fs (.ofStr s) sep md ea = .ok df → df.length = 1) ∧
    (∀ df, fs.read s = none →
      flatten_json_to_polars fs (.ofStr s) sep md ea = .ok df → df.length = 1) := by
  refine ⟨?_, ?_, ?_, ?_⟩
  · intro h
    constructor
    · simp [flatten_json_to_pandas, h]
    · simp [flatten_json_to_polars, HAS_POLARS, h]
  · intro h
    have h2 : (fs.read s).isSome = false := by rw [h]; rfl
    constructor
    · simp [flatten_json_to_pandas, h2]
    · simp [flatten_json_to_polars, HAS_POLARS, h2]
  · intro df h hok
    have h2 : (fs.read s).isSome = false := by rw [h]; rfl
    simp only [flatten_json_to_pandas, h2, Bool.false_eq_true, if_false] at hok
    cases hfj : (mkJSONFlattener sep none md true ea 10000 false).flatten_json (.ofStr s) with
    | ok r =>
        rw [hfj] at hok
        simp only [Except.map] at hok
        cases hok
        rfl
    | error e =>
        rw [hfj] at hok
        simp [Except.map] at hok
  · intro df h hok
    have h2 : (fs.read s).isSome = false := by rw [h]; rfl
    simp only [flatten_json_to_polars, HAS_POLARS, Bool.not_true, Bool.false_eq_true,
      if_false, h2] at hok
    cases hfj : (mkJSONFlattener sep none md true ea 10000 true).flatten_json (.ofStr s) with
    | ok r =>
        rw [hfj] at hok
        simp only [Except.map] at hok
        cases hok
        rfl
    | error e =>
        rw [hfj] at hok
        simp [Except.map] at hok

/-- Witness for C10: an empty filesystem and the document `5`. -/
theorem convenience_string_path_dispatch_witness :
    (flatten_json_to_pandas ⟨fun _ => none⟩ (.ofStr "5".data) ['.'] 0 true
      = ((mkJSONFlattener ['.'] none 0 true true 10000 false).flatten_json
          (.ofStr "5".data)).map (fun r => [r]))
    ∧ ([[(([] : Str), "5".data)]] : List (List (Str × Str))).length = 1 :=
  ⟨((convenience_string_path_dispatch ⟨fun _ => none⟩ ['.'] 0 true "5".data).2.1 rfl).1,
    (convenience_string_path_dispatch ⟨fun _ => none⟩ ['.'] 0 true "5".data).2.2.1
      [[(([] : Str), "5".data)]] rfl rfl⟩

theorem extKey_cons (p sep k : Str) (ks : List Str) :
    extKey p sep (k :: ks) = extKey (newKey p sep k) sep ks := rfl

theorem extKey_ne_nil (sep : Str) :
    ∀ (ks : List Str) (p : Str), p ≠ [] →
      extKey p sep ks = p ++ (ks.map (fun k => sep ++ k)).flatten := by
  intro ks
  induction ks with
  | nil => intro p _; simp [extKey]
  | cons k t ih =>
    intro p hp
    rw [extKey_cons]
    have hnk : newKey p sep k = p ++ sep ++ k := by simp [newKey, hp]
    rw [hnk, ih (p ++ sep ++ k) (by simp [hp])]
    simp [List.append_assoc]

theorem extKey_nil_cons (sep k : Str) (ks : List Str) (hk : k ≠ []) :
    extKey [] sep (k :: ks) = k ++ (ks.map (fun x => sep ++ x)).flatten := by
  rw [extKey_cons]
  have hnk : newKey [] sep k = k := by simp [newKey]
  rw [hnk]
  exact extKey_ne_nil sep ks k hk

/-- Splitting `k0 ++ sep k1 ++ sep k2 ++ ...` on the separator character
recovers `[k0, k1, k2, ...]` when no component contains the separator. -/
theorem splitOnSep_prefix_flat (c : Char) :
    ∀ ks : List Str, (∀ k ∈ ks, c ∉ k) → ∀ k0 : Str, c ∉ k0 →
      splitOnSep c (k0 ++ (ks.map (fun x => c :: x)).flatten) = k0 :: ks := by
  intro ks
  induction ks with
  | nil =>
    intro _ k0 h0
    simp only [List.map_nil, List.flatten_nil, List.append_nil]
    exact List.splitOnP_eq_single (· == c) k0
      (by intro x hx hb; exact h0 ((eq_of_beq hb) ▸ hx))
  | cons k t ih =>
    intro hall k0 h0
    simp only [List.map_cons, List.flatten_cons]
    have hshape : k0 ++ ((c :: k) ++ (t.map (fun x => c :: x)).flatten)
        = k0 ++ c :: (k ++ (t.map (fun x => c :: x)).flatten) := by simp
    rw [hshape]
    show (k0 ++ c :: (k ++ (t.map (fun x => c :: x)).flatten)).splitOnP (· == c) = _
    rw [List.splitOnP_first (· == c) k0
      (by intro x hx hb; exact h0 ((eq_of_beq hb) ▸ hx)) c (by simp) _]
    refine congrArg (k0 :: ·) ?_
    exact ih (fun x hx => hall x (List.mem_cons_of_mem k hx)) k
      (hall k (List.mem_cons_self k t))

/-- Splitting the joined path of a nonempty separator-free key sequence
recovers the sequence. -/
theorem splitOnSep_extKey_nil (c : Char) (ks : List Str) (hne : ks ≠ [])
    (hgood : ∀ k ∈ ks, k ≠ [] ∧ c ∉ k) :
    splitOnSep c (extKey [] [c] ks) = ks := by
  cases ks with
  | nil => exact absurd rfl hne
  | cons k t =>
    rw [extKey_nil_cons [c] k t (hgood k (List.mem_cons_self k t)).1]
    simp only [List.singleton_append]
    exact splitOnSep_prefix_flat c t
      (fun x hx => (hgood x (List.mem_cons_of_mem k hx)).2) k
      (hgood k (List.mem_cons_self k t)).2

/-- On nonempty separator-free key sequences, path joining below any fixed
prefix is injective. -/
theorem extKey_inj (c : Char) (nk : Str) (ks1 ks2 : List Str)
    (h1 : ks1 ≠ []) (h2 : ks2 ≠ [])
    (g1 : ∀ k ∈ ks1, k ≠ [] ∧ c ∉ k) (g2 : ∀ k ∈ ks2, k ≠ [] ∧ c ∉ k)
    (heq : extKey nk [c] ks1 = extKey nk [c] ks2) : ks1 = ks2 := by
  by_cases hnk : nk = []
  · subst hnk
    rw [← splitOnSep_extKey_nil c ks1 h1 g1, ← splitOnSep_extKey_nil c ks2 h2 g2, heq]
  · rw [extKey_ne_nil [c] ks1 nk hnk, extKey_ne_nil [c] ks2 nk hnk] at heq
    have hflat := List.append_cancel_left heq
    simp only [List.singleton_append] at hflat
    have e1 := splitOnSep_prefix_flat c ks1 (fun k hk => (g1 k hk).2) [] (by simp)
    have e2 := splitOnSep_prefix_flat c ks2 (fun k hk => (g2 k hk).2) [] (by simp)
    simp only [List.nil_append] at e1 e2
    have : ([] : Str) :: ks1 = ([] : Str) :: ks2 := by rw [← e1, ← e2, hflat]
    exact (List.cons_inj_right _).mp this

/-- Unpacked form of one `goodKvs` entry. -/
theorem goodKvs_cons_iff (c : Char) (k : Str) (v : Json) (rest : List (Str × Json)) :
    goodKvs c ((k, v) :: rest) = true ↔
      (k ≠ [] ∧ c ∉ k ∧ (∀ e ∈ rest, ¬(e.1 = k)) ∧ goodVal c v = true
        ∧ goodKvs c rest = true) := by
  rw [goodKvs]
  simp only [Bool.and_eq_true]
  constructor
  · rintro ⟨⟨⟨⟨hk1, hk2⟩, hk3⟩, hv⟩, hrest⟩
    refine ⟨by simpa using hk1, by simpa using hk2, ?_, hv, hrest⟩
    rw [Bool.not_eq_true'] at hk3
    rw [List.any_eq_false] at hk3
    intro e he heq
    exact hk3 e he (by simp [heq])
  · rintro ⟨hk1, hk2, hk3, hv, hrest⟩
    refine ⟨⟨⟨⟨by simpa using hk1, by simpa using hk2⟩, ?_⟩, hv⟩, hrest⟩
    rw [Bool.not_eq_true']
    rw [List.any_eq_false]
    intro e he
    simpa using hk3 e he

mutual
/-- All key components reachable below a well-formed value are nonempty and
separator-free. -/
theorem good_leafVal (c : Char) : ∀ v : Json, goodVal c v = true →
    ∀ s ∈ leafSeqsVal v, ∀ k ∈ s, k ≠ [] ∧ c ∉ k
  | .obj kvs, h, s, hs, k, hk => (good_leafObj c kvs h s hs).2 k hk
  | .null, _, s, hs, k, hk => by
      simp only [leafSeqsVal, List.mem_singleton] at hs
      subst hs; simp at hk
  | .bool b, _, s, hs, k, hk => by
      simp only [leafSeqsVal, List.mem_singleton] at hs
      subst hs; simp at hk
  | .num n, _, s, hs, k, hk => by
      simp only [leafSeqsVal, List.mem_singleton] at hs
      subst hs; simp at hk
  | .str t, _, s, hs, k, hk => by
      simp only [leafSeqsVal, List.mem_singleton] at hs
      subst hs; simp at hk
  | .arr xs, h, s, hs, k, hk => by simp [goodVal] at h

/-- Leaf key sequences of a well-formed object layer are nonempty and all
their components are nonempty and separator-free. -/
theorem good_leafObj (c : Char) : ∀ kvs : List (Str × Json), goodKvs c kvs = true →
    ∀ s ∈ leafSeqsObj kvs, s ≠ [] ∧ ∀ k ∈ s, k ≠ [] ∧ c ∉ k
  | [], _, s, hs => by simp [leafSeqsObj] at hs
  | (k, v) :: rest, h, s, hs => by
      obtain ⟨hk1, hk2, _, hv, hrest⟩ := (goodKvs_cons_iff c k v rest).mp h
      simp only [leafSeqsObj, List.mem_append, List.mem_map] at hs
      rcases hs with ⟨t, ht, rfl⟩ | hs2
      · refine ⟨by simp, ?_⟩
        intro x hx
        rcases List.mem_cons.mp hx with rfl | hx2
        · exact ⟨hk1, hk2⟩
        · exact good_leafVal c v hv t ht x hx2
      · exact good_leafObj c rest hrest s hs2
end

/-- Every leaf key sequence of an object layer starts with the key of one of
its entries. -/
theorem leafSeqsObj_head :
    ∀ kvs : List (Str × Json), ∀ s ∈ leafSeqsObj kvs, ∃ kv ∈ kvs, ∃ t, s = kv.1 :: t := by
  intro kvs
  induction kvs with
  | nil => intro s hs; simp [leafSeqsObj] at hs
  | cons kv rest ih =>
    obtain ⟨k, v⟩ := kv
    intro s hs
    simp only [leafSeqsObj, List.mem_append, List.mem_map] at hs
    rcases hs with ⟨t, _, rfl⟩ | hs2
    · refine ⟨(k, v), List.mem_cons_self (k, v) rest, t, rfl⟩
    · obtain ⟨kv2, hkv2, t, hteq⟩ := ih s hs2
      exact ⟨kv2, List.mem_cons_of_mem _ hkv2, t, hteq⟩

mutual
/-- Leaf key sequences of a well-formed value are pairwise distinct. -/
theorem leafSeqsVal_nodup (c : Char) : ∀ v : Json, goodVal c v = true →
    (leafSeqsVal v).Nodup
  | .obj kvs, h => leafSeqsObj_nodup c kvs h
  | .null, _ => by simp [leafSeqsVal]
  | .bool b, _ => by simp [leafSeqsVal]
  | .num n, _ => by simp [leafSeqsVal]
  | .str t, _ => by simp [leafSeqsVal]
  | .arr xs, h => by simp [goodVal] at h

/-- Leaf key sequences of a well-formed object layer are pairwise distinct. -/
theorem leafSeqsObj_nodup (c : Char) : ∀ kvs : List (Str × Json), goodKvs c kvs = true →
    (leafSeqsObj kvs).Nodup
  | [], _ => by simp [leafSeqsObj]
  | (k, v) :: rest, h => by
      obtain ⟨_, _, hk3, hv, hrest⟩ := (goodKvs_cons_iff c k v rest).mp h
      show (((leafSeqsVal v).map (fun s => k :: s)) ++ leafSeqsObj rest).Nodup
      refine List.Nodup.append ?_ (leafSeqsObj_nodup c rest hrest) ?_
      · exact (leafSeqsVal_nodup c v hv).map (fun a b hab => by injection hab)
      · intro s hs1 hs2
        simp only [List.mem_map] at hs1
        obtain ⟨t, _, rfl⟩ := hs1
        obtain ⟨kv2, hkv2, t2, hteq⟩ := leafSeqsObj_head rest (k :: t) hs2
        have : kv2.1 = k := by injection hteq.symm
        exact hk3 kv2 hkv2 this
end

mutual
/-- Keys produced for one well-formed dict value at prefix `nk` are exactly
the joined leaf key sequences below it. -/
theorem fjpVal_keys (c : Char) : ∀ (v : Json) (nk : Str), goodVal c v = true →
    (fjpVal [c] nk v).map Prod.fst = (leafSeqsVal v).map (extKey nk [c])
  | .obj kvs, nk, h => by
      have hkeys := fjpItems_keys c kvs nk h
      have hnodup : ((fjpItems [c] nk kvs).map Prod.fst).Nodup := by
        rw [hkeys]
        refine (leafSeqsObj_nodup c kvs h).map_on ?_
        intro s1 hs1 s2 hs2 heq
        obtain ⟨hne1, hg1⟩ := good_leafObj c kvs h s1 hs1
        obtain ⟨hne2, hg2⟩ := good_leafObj c kvs h s2 hs2
        exact extKey_inj c nk s1 s2 hne1 hne2 hg1 hg2 heq
      show (pyDict (fjpItems [c] nk kvs)).map Prod.fst = (leafSeqsObj kvs).map (extKey nk [c])
      rw [pyDict_eq_self _ hnodup, hkeys]
  | .null, nk, _ => by simp [fjpVal, leafSeqsVal, extKey]
  | .bool b, nk, _ => by simp [fjpVal, leafSeqsVal, extKey]
  | .num n, nk, _ => by simp [fjpVal, leafSeqsVal, extKey]
  | .str s, nk, _ => by simp [fjpVal, leafSeqsVal, extKey]
  | .arr xs, nk, h => by simp [goodVal] at h

/-- Keys of the accumulated items of a well-formed object layer at prefix `p`
are exactly the joined leaf key sequences. -/
theorem fjpItems_keys (c : Char) : ∀ (kvs : List (Str × Json)) (p : Str),
    goodKvs c kvs = true →
    (fjpItems [c] p kvs).map Prod.fst = (leafSeqsObj kvs).map (extKey p [c])
  | [], p, _ => rfl
  | (k, v) :: rest, p, h => by
      obtain ⟨_, _, _, hv, hrest⟩ := (goodKvs_cons_iff c k v rest).mp h
      show (fjpVal [c] (newKey p [c] k) v ++ fjpItems [c] p rest).map Prod.fst
          = (((leafSeqsVal v).map (fun s => k :: s)) ++ leafSeqsObj rest).map (extKey p [c])
      rw [List.map_append, List.map_append, List.map_map]
      rw [fjpVal_keys c v (newKey p [c] k) hv, fjpItems_keys c rest p hrest]
      rfl
end

/-- Claim C3 (amended): for a JSON object with no arrays whose keys are, at
every level, nonempty, separator-free and unique, flattening with a
single-character separator produces exactly one path per leaf scalar (the
joined key sequences, pairwise distinct, in traversal order), and splitting
each produced path on the separator recovers the original root-to-leaf key
sequence. -/
theorem flatten_path_split_roundtrip (c : Char) (kvs : List (Str × Json))
    (h : goodKvs c kvs = true) :
    (flatten_json_python kvs [] [c]).map Prod.fst = (leafSeqsObj kvs).map (extKey [] [c]) ∧
    ((flatten_json_python kvs [] [c]).map Prod.fst).Nodup ∧
    (flatten_json_python kvs [] [c]).length = (leafSeqsObj kvs).length ∧
    (flatten_json_python kvs [] [c]).map (fun pr => splitOnSep c pr.1) = leafSeqsObj kvs := by
  have hkeys := fjpItems_keys c kvs [] h
  have hnodup : ((fjpItems [c] [] kvs).map Prod.fst).Nodup := by
    rw [hkeys]
    refine (leafSeqsObj_nodup c kvs h).map_on ?_
    intro s1 hs1 s2 hs2 heq
    obtain ⟨hne1, hg1⟩ := good_leafObj c kvs h s1 hs1
    obtain ⟨hne2, hg2⟩ := good_leafObj c kvs h s2 hs2
    exact extKey_inj c [] s1 s2 hne1 hne2 hg1 hg2 heq
  have hpd : flatten_json_python kvs [] [c] = fjpItems [c] [] kvs :=
    pyDict_eq_self _ hnodup
  refine ⟨by rw [hpd, hkeys], by rw [hpd]; exact hnodup, ?_, ?_⟩
  · rw [hpd]
    have := congrArg List.length hkeys
    simpa using this
  · rw [hpd]
    have hcomp : (fjpItems [c] [] kvs).map (fun pr => splitOnSep c pr.1)
        = ((fjpItems [c] [] kvs).map Prod.fst).map (splitOnSep c) := by
      rw [List.map_map]
      rfl
    rw [hcomp, hkeys, List.map_map]
    have hpt : ∀ s ∈ leafSeqsObj kvs, (splitOnSep c ∘ extKey [] [c]) s = s := by
      intro s hs
      obtain ⟨hne, hg⟩ := good_leafObj c kvs h s hs
      exact splitOnSep_extKey_nil c s hne hg
    rw [List.map_congr_left hpt]
    simp

/-- Witness for the amended C3 at a concrete nested object. -/
theorem flatten_path_split_roundtrip_witness :
    goodKvs '.' [("a".data, Json.obj [("b".data, Json.num 1)]), ("c".data, Json.num 2)] = true ∧
    (flatten_json_python
        [("a".data, Json.obj [("b".data, Json.num 1)]), ("c".data, Json.num 2)] [] ['.']).map
          (fun pr => splitOnSep '.' pr.1)
      = leafSeqsObj [("a".data, Json.obj [("b".data, Json.num 1)]), ("c".data, Json.num 2)] :=
  ⟨by decide,
    (flatten_path_split_roundtrip '.'
      [("a".data, Json.obj [("b".data, Json.num 1)]), ("c".data, Json.num 2)]
      (by decide)).2.2.2⟩

/-- Counterexample to claim C3 as stated: with separator "." and the single
key "a.b" (which contains the separator), splitting the produced path does
not recover the original one-element key sequence. -/
theorem separator_in_key_breaks_roundtrip :
    ¬ ((flatten_json_python [("a.b".data, Json.num 1)] [] ['.']).map
          (fun pr => splitOnSep '.' pr.1)
        = leafSeqsObj [("a.b".data, Json.num 1)]) := by decide

/-- On an already-flat object the accumulated items are the entries with
stringified values, in order. -/
theorem fjpItems_flat (sep : Str) :
    ∀ kvs : List (Str × Json), kvs.all (fun kv => isFlatVal kv.2) = true →
      fjpItems sep [] kvs = kvs.map (fun kv => (kv.1, pyStr kv.2)) := by
  intro kvs
  induction kvs with
  | nil => intro _; rfl
  | cons kv rest ih =>
    intro h
    obtain ⟨k, v⟩ := kv
    rw [List.all_cons, Bool.and_eq_true] at h
    obtain ⟨hv, hrest⟩ := h
    have hno : newKey [] sep k = k := by simp [newKey]
    show fjpVal sep (newKey [] sep k) v ++ fjpItems sep [] rest = _
    rw [hno, ih hrest]
    cases v <;> simp [fjpVal, isFlatVal] at hv ⊢

/-- Claim C4 (amended): flattening an already-flat single-level object (with
its dict-invariant distinct keys) yields a record with exactly the same keys
in the same order, each value replaced by its Python string rendering; when
every value is a string the record read back as an object is the input
mapping itself. -/
theorem flat_object_flatten_stringifies (sep : Str) (kvs : List (Str × Json))
    (hflat : kvs.all (fun kv => isFlatVal kv.2) = true)
    (hkeys : (kvs.map Prod.fst).Nodup) :
    flatten_json_python kvs [] sep = kvs.map (fun kv => (kv.1, pyStr kv.2)) ∧
    ((∀ kv ∈ kvs, ∃ s, kv.2 = Json.str s) →
      recordToObj (flatten_json_python kvs [] sep) = kvs) := by
  have hitems := fjpItems_flat sep kvs hflat
  have hfst : (fjpItems sep [] kvs).map Prod.fst = kvs.map Prod.fst := by
    rw [hitems, List.map_map]
    rfl
  have hnodup : ((fjpItems sep [] kvs).map Prod.fst).Nodup := by
    rw [hfst]; exact hkeys
  have hmain : flatten_json_python kvs [] sep = kvs.map (fun kv => (kv.1, pyStr kv.2)) := by
    show pyDict (fjpItems sep [] kvs) = _
    rw [pyDict_eq_self _ hnodup, hitems]
  refine ⟨hmain, ?_⟩
  intro hstr
  rw [hmain]
  show (kvs.map fun kv => (kv.1, pyStr kv.2)).map (fun pr => (pr.1, Json.str pr.2)) = kvs
  rw [List.map_map]
  have hpt : ∀ kv ∈ kvs,
      ((fun pr : Str × Str => (pr.1, Json.str pr.2)) ∘ fun kv : Str × Json =>
        (kv.1, pyStr kv.2)) kv = kv := by
    intro kv hkv
    obtain ⟨s, hs⟩ := hstr kv hkv
    obtain ⟨k, v⟩ := kv
    have hv : v = Json.str s := hs
    subst hv
    rfl
  rw [List.map_congr_left hpt]
  simp

/-- Witness for the amended C4 at a concrete flat object with a string and a
number value. -/
theorem flat_object_flatten_stringifies_witness :
    ([("a".data, Json.num 1), ("b".data, Json.str "x".data)].all
        (fun kv => isFlatVal kv.2) = true) ∧
    flatten_json_python [("a".data, Json.num 1), ("b".data, Json.str "x".data)] [] ['.']
      = [("a".data, Json.num 1), ("b".data, Json.str "x".data)].map
          (fun kv => (kv.1, pyStr kv.2)) :=
  ⟨by decide,
    (flat_object_flatten_stringifies ['.']
      [("a".data, Json.num 1), ("b".data, Json.str "x".data)] (by decide) (by decide)).1⟩

/-- Counterexample to claim C4 as stated: the already-flat object with the
single pair a=1 flattens to the pair a="1" (the number stringified), which
is not identical to the input mapping. -/
theorem flat_object_not_identical_stringified :
    ¬ (recordToObj (flatten_json_python [("a".data, Json.num 1)] [] ['.'])
        = [("a".data, Json.num 1)]) := by
  intro h
  have hcomp : recordToObj (flatten_json_python [("a".data, Json.num 1)] [] ['.'])
      = [("a".data, Json.str "1".data)] := rfl
  rw [hcomp] at h
  injection h with h1 _
  injection h1 with _ h2
  injection h2
